import Mathlib

/-!
Verification of the data aggregation and grouping pipeline of the
Fediverse-User-Growth repository: `RenderPlot.group_data`, the event
annotation pass of `RenderPlot.render`, and the cache freshness test of
`DataDownloader.get_monthly_stats_cached`.
-/

namespace FediGrowth

/-- A naive timestamp as produced by
`datetime.strptime(s, '%Y-%m-%d %H:%M:%S')`. -/
structure DateTime where
  year : Nat
  month : Nat
  day : Nat
  hour : Nat
  minute : Nat
  second : Nat
deriving DecidableEq, Repr

/-- Proleptic Gregorian leap-year rule (as in Python's `datetime`). -/
def isLeap (y : Nat) : Bool :=
  (y % 4 == 0 && y % 100 != 0) || y % 400 == 0

/-- Number of days in month `m` of year `y`. -/
def daysInMonth (y m : Nat) : Nat :=
  if m = 2 then (if isLeap y then 29 else 28)
  else if m = 4 ∨ m = 6 ∨ m = 9 ∨ m = 11 then 30
  else 31

/-- Calendar validity as enforced by the `datetime` constructor
(`MINYEAR = 1`, `MAXYEAR = 9999`). -/
def DateTime.valid (dt : DateTime) : Bool :=
  1 ≤ dt.year && dt.year ≤ 9999 && 1 ≤ dt.month && dt.month ≤ 12 &&
  1 ≤ dt.day && dt.day ≤ daysInMonth dt.year dt.month &&
  dt.hour < 24 && dt.minute < 60 && dt.second < 60

/-- Python `datetime` strict comparison: lexicographic on the six fields. -/
def DateTime.lt (a b : DateTime) : Bool :=
  a.year < b.year || (a.year == b.year && (
  a.month < b.month || (a.month == b.month && (
  a.day < b.day || (a.day == b.day && (
  a.hour < b.hour || (a.hour == b.hour && (
  a.minute < b.minute || (a.minute == b.minute &&
  a.second < b.second)))))))))

/-- Python `datetime` non-strict comparison: lexicographic on the six
fields. -/
def DateTime.le (a b : DateTime) : Bool :=
  a.year < b.year || (a.year == b.year && (
  a.month < b.month || (a.month == b.month && (
  a.day < b.day || (a.day == b.day && (
  a.hour < b.hour || (a.hour == b.hour && (
  a.minute < b.minute || (a.minute == b.minute &&
  a.second ≤ b.second)))))))))

/-- Python string comparison, lexicographic on code points: a proper prefix
is smaller, otherwise the first differing code point decides. -/
def charListLt : List Char → List Char → Bool
  | _, [] => false
  | [], _ :: _ => true
  | a :: as, b :: bs =>
    a.toNat < b.toNat || (a.toNat == b.toNat && charListLt as bs)

/-- Python `s < t` on strings. -/
def strLt (s t : String) : Bool := charListLt s.data t.data

/-- Python `s <= t` on strings. -/
def strLe (s t : String) : Bool := !(strLt t s)

/-- Value of a list of decimal digit characters. -/
def digitsVal (cs : List Char) : Nat :=
  cs.foldl (fun n c => n * 10 + (c.toNat - 48)) 0

/-- A run of decimal digits whose length lies between `lo` and `hi`, as
matched by the regexes CPython's `_strptime` builds for `%Y` (exactly four
digits) and `%m`, `%d`, `%H`, `%M`, `%S` (one or two digits). -/
def parseField (cs : List Char) (lo hi : Nat) : Option Nat :=
  if lo ≤ cs.length && cs.length ≤ hi && cs.all Char.isDigit then
    some (digitsVal cs)
  else none

/-- Model of `datetime.strptime(s, '%Y-%m-%d %H:%M:%S')`, returning `none`
exactly where Python raises `ValueError`: pattern mismatch, a field out of
range, or a calendar-invalid date. -/
def parseDateTime (s : String) : Option DateTime :=
  match s.data.splitOnP (· == ' ') with
  | [datePart, timePart] =>
    match datePart.splitOnP (· == '-'), timePart.splitOnP (· == ':') with
    | [ys, ms, ds], [hs, mins, ss] =>
      match parseField ys 4 4, parseField ms 1 2, parseField ds 1 2,
            parseField hs 1 2, parseField mins 1 2, parseField ss 1 2 with
      | some y, some mo, some d, some h, some mi, some sec =>
        let dt : DateTime := ⟨y, mo, d, h, mi, sec⟩
        if dt.valid then some dt else none
      | _, _, _, _, _, _ => none
    | _, _ => none
  | _ => none

/-- Zero-pad `n` to two digits (the `%02d` / `:02d` formats). -/
def pad2 (n : Nat) : String :=
  if n < 100 then ⟨[Nat.digitChar (n / 10), Nat.digitChar (n % 10)]⟩
  else toString n

/-- Zero-pad `n` to four digits (`%Y` on an in-range year). -/
def pad4 (n : Nat) : String :=
  if n < 10000 then
    ⟨[Nat.digitChar (n / 1000), Nat.digitChar (n / 100 % 10),
      Nat.digitChar (n / 10 % 10), Nat.digitChar (n % 10)]⟩
  else toString n

/-- The day bucket label, `dt.strftime('%Y-%m-%d')`. -/
def dayKey (dt : DateTime) : String :=
  pad4 dt.year ++ "-" ++ pad2 dt.month ++ "-" ++ pad2 dt.day

/-- The month bucket label, `dt.strftime('%Y-%m')`. -/
def monthKey (dt : DateTime) : String :=
  pad4 dt.year ++ "-" ++ pad2 dt.month

/-- Cumulative days before month `m` in a non-leap year. -/
def daysBeforeMonth (m : Nat) : Nat :=
  match m with
  | 1 => 0 | 2 => 31 | 3 => 59 | 4 => 90 | 5 => 120 | 6 => 151 | 7 => 181
  | 8 => 212 | 9 => 243 | 10 => 273 | 11 => 304 | _ => 334

/-- Ordinal day of the year, 1-based (`dt.timetuple().tm_yday`). -/
def dayOfYear (y m d : Nat) : Nat :=
  daysBeforeMonth m + (if 2 < m && isLeap y then 1 else 0) + d

/-- Rata-die day number (`date.toordinal()`, with 0001-01-01 ↦ 1). -/
def rataDie (y m d : Nat) : Nat :=
  365 * (y - 1) + (y - 1) / 4 - (y - 1) / 100 + (y - 1) / 400 + dayOfYear y m d

/-- ISO weekday (`date.isoweekday()`): Monday = 1 … Sunday = 7. -/
def isoWeekday (y m d : Nat) : Nat :=
  (rataDie y m d + 6) % 7 + 1

/-- Number of ISO weeks in year `y` (52 or 53): the ISO week containing
December 28. -/
def isoWeeksInYear (y : Nat) : Nat :=
  (dayOfYear y 12 28 + 10 - isoWeekday y 12 28) / 7

/-- ISO week number, `dt.isocalendar()[1]`. -/
def isoWeekNumber (y m d : Nat) : Nat :=
  let w := (dayOfYear y m d + 10 - isoWeekday y m d) / 7
  if w < 1 then isoWeeksInYear (y - 1)
  else if isoWeeksInYear y < w then 1
  else w

/-- The week bucket label `f"{dt.year}-W{dt.isocalendar()[1]:02d}"`: the
*calendar* year `dt.year` (unpadded, as the f-string prints it) joined with
the ISO week number. -/
def weekKey (dt : DateTime) : String :=
  toString dt.year ++ "-W" ++ pad2 (isoWeekNumber dt.year dt.month dt.day)

/-- A record handed to `RenderPlot`: a dict with keys `id`, `total_users`,
`date_checked`. Here `total_users = none` models a dict lacking that key,
read through `record.get('total_users', 0)`. -/
structure Record where
  id : Int
  total_users : Option Int
  date_checked : String
deriving DecidableEq, Repr

/-- An entry of `data/known_events.json`: `{label, date}`. -/
structure KnownEvent where
  label : String
  date : String
deriving DecidableEq, Repr

/-- The two `ValueError`s `group_data` can raise. -/
inductive GroupError where
  | invalidArgument (group_by : String)
  | malformedRecord (date_checked : String)
deriving DecidableEq, Repr

instance {ε α : Type} [DecidableEq ε] [DecidableEq α] :
    DecidableEq (Except ε α) := fun a b =>
  match a, b with
  | .error e, .error e' =>
    if h : e = e' then .isTrue (by rw [h])
    else .isFalse (by intro c; cases c; exact h rfl)
  | .ok x, .ok y =>
    if h : x = y then .isTrue (by rw [h])
    else .isFalse (by intro c; cases c; exact h rfl)
  | .error _, .ok _ => .isFalse (by intro c; cases c)
  | .ok _, .error _ => .isFalse (by intro c; cases c)

/-- The key picked by the `if/elif` chain on `group_by`; the last arm is the
`month` one (the chain is reached only for a validated `group_by`). -/
def bucketKey (group_by : String) (dt : DateTime) : String :=
  if group_by == "day" then dayKey dt
  else if group_by == "week" then weekKey dt
  else monthKey dt

/-- Model of `groups.setdefault(key, 0); groups[key] += v` on an
insertion-ordered dict represented as an association list. -/
def dictAdd (g : List (String × Int)) (k : String) (v : Int) :
    List (String × Int) :=
  match g with
  | [] => [(k, v)]
  | (k', v') :: rest =>
    if k' = k then (k', v' + v) :: rest else (k', v') :: dictAdd rest k v

/-- One iteration of the `for record in self.data` loop of `group_data`:
parse `date_checked` (re-raising a `ValueError` that names the offending
value), `continue` past records outside the bounds, and add the record's
count into its bucket. -/
def groupStep (group_by : String) (date_from date_to : Option DateTime)
    (g : List (String × Int)) (r : Record) :
    Except GroupError (List (String × Int)) :=
  match parseDateTime r.date_checked with
  | none => .error (.malformedRecord r.date_checked)
  | some dt =>
    if (match date_from with | some f => DateTime.lt dt f | none => false) then
      .ok g
    else if (match date_to with | some t => DateTime.lt t dt | none => false) then
      .ok g
    else
      .ok (dictAdd g (bucketKey group_by dt) (r.total_users.getD 0))

/-- Stable insertion into a list sorted non-strictly by key. -/
def insertSorted (x : String × Int) :
    List (String × Int) → List (String × Int)
  | [] => [x]
  | y :: ys => if strLe x.1 y.1 then x :: y :: ys else y :: insertSorted x ys

/-- Model of `sorted(groups.items(), key=lambda x: x[0])`: a stable sort,
ascending by key under Python string comparison. -/
def sortByKey : List (String × Int) → List (String × Int)
  | [] => []
  | x :: xs => insertSorted x (sortByKey xs)

/-- `RenderPlot.group_data`: validate `group_by`, run the aggregation loop,
sort the dict items by key, and unzip into `(x_values, y_values)`. -/
def group_data (data : List Record) (group_by : String)
    (date_from date_to : Option DateTime) :
    Except GroupError (List String × List Int) :=
  if group_by == "day" || group_by == "week" || group_by == "month" then do
    let g ← data.foldlM (groupStep group_by date_from date_to) []
    let sorted := sortByKey g
    .ok (sorted.map Prod.fst, sorted.map Prod.snd)
  else .error (.invalidArgument group_by)

/-- One assignment of the dict comprehension
`{key: i for i, key in enumerate(x_values)}` (a later duplicate key would
overwrite an earlier one). -/
def dictInsert (d : List (String × Nat)) (k : String) (v : Nat) :
    List (String × Nat) :=
  match d with
  | [] => [(k, v)]
  | (k', v') :: rest =>
    if k' = k then (k', v) :: rest else (k', v') :: dictInsert rest k v

/-- The mapping `key_to_index = {key: i for i, key in enumerate(x_values)}`
built in `RenderPlot.render`. -/
def key_to_index (xs : List String) : List (String × Nat) :=
  xs.enum.foldl (fun d p => dictInsert d p.2 p.1) []

/-- The per-event body of the annotation loop in `RenderPlot.render`: parse
the event date (skip the event, with a printed diagnostic, on failure),
apply the same bound filters as `group_data`, compute the same bucket key,
and anchor the label to `key_to_index[event_key]` when that key is present. -/
def annotateEvent (group_by : String) (date_from date_to : Option DateTime)
    (k2i : List (String × Nat)) (ev : KnownEvent) : Option (Nat × String) :=
  match parseDateTime ev.date with
  | none => none
  | some dt =>
    if (match date_from with | some f => DateTime.lt dt f | none => false) then
      none
    else if (match date_to with | some t => DateTime.lt t dt | none => false) then
      none
    else
      match k2i.lookup (bucketKey group_by dt) with
      | some i => some (i, ev.label)
      | none => none

/-- The annotation loop over `known_events`, collecting the `(x_pos, label)`
pairs passed to `ax.annotate`, in input order. -/
def eventAnnotations (group_by : String) (date_from date_to : Option DateTime)
    (xs : List String) (events : List KnownEvent) : List (Nat × String) :=
  events.foldl (fun acc ev =>
    match annotateEvent group_by date_from date_to (key_to_index xs) ev with
    | some a => acc ++ [a]
    | none => acc) []

/-- The freshness test of `DataDownloader.get_monthly_stats_cached`: the
value of `need_update` when the cache file exists and has modification time
`mod_date`; the cache is stale unless it was modified in the same calendar
year and month as `now`. -/
def cacheIsStale (mod_date now : DateTime) : Bool :=
  !(mod_date.year == now.year && mod_date.month == now.month)

/-- Specification-side restatement of the date filter: a record is included
iff `date_from <= date_checked <= date_to` for whichever bound is supplied. -/
def inBounds (date_from date_to : Option DateTime) (dt : DateTime) : Bool :=
  (date_from.all fun b => DateTime.le b dt) && (date_to.all fun b => DateTime.le dt b)

/-- The `(bucket_key, count)` contribution of a single record, `none` if the
record is filtered out (callers establish separately that its date parses). -/
def recordContrib (group_by : String) (date_from date_to : Option DateTime)
    (r : Record) : Option (String × Int) :=
  match parseDateTime r.date_checked with
  | none => none
  | some dt =>
    if (match date_from with | some f => DateTime.lt dt f | none => false) then
      none
    else if (match date_to with | some t => DateTime.lt t dt | none => false) then
      none
    else
      some (bucketKey group_by dt, r.total_users.getD 0)

/-- Specification-side count of one record: its `total_users` (0 when the
key is absent) if the record parses and passes the date filter. -/
def includedCount (date_from date_to : Option DateTime) (r : Record) :
    Option Int :=
  match parseDateTime r.date_checked with
  | none => none
  | some dt =>
    if inBounds date_from date_to dt then some (r.total_users.getD 0) else none

/-- The value stored under key `k` of an association-list dict (0 when the
key is absent). -/
def valueAt : List (String × Int) → String → Int
  | [], _ => 0
  | (k', v) :: rest, k => if k' = k then v else valueAt rest k

/-- Total contribution of key `k` in a contribution list. -/
def keySum (k : String) (cs : List (String × Int)) : Int :=
  ((cs.filter fun c => c.1 = k).map Prod.snd).sum

/-- Folding the contributions of the included records into the dict. -/
def buildDict (g : List (String × Int)) (cs : List (String × Int)) :
    List (String × Int) :=
  cs.foldl (fun g c => dictAdd g c.1 c.2) g

/-! ### Order properties of Python string comparison -/

theorem charToNat_inj {a b : Char} (h : a.toNat = b.toNat) : a = b :=
  Char.eq_of_val_eq (UInt32.toNat.inj h)

theorem charListLt_irrefl : ∀ l, charListLt l l = false
  | [] => rfl
  | a :: as => by simp [charListLt, charListLt_irrefl as]

theorem charListLt_trans : ∀ {l₁ l₂ l₃ : List Char},
    charListLt l₁ l₂ = true → charListLt l₂ l₃ = true →
    charListLt l₁ l₃ = true
  | _, _, [], _, h₂ => by simp [charListLt] at h₂
  | [], _ :: _, _ :: _, _, _ => rfl
  | [], [], _ :: _, h₁, _ => by simp [charListLt] at h₁
  | _ :: _, [], _ :: _, h₁, _ => by simp [charListLt] at h₁
  | a :: as, b :: bs, c :: cs, h₁, h₂ => by
    simp only [charListLt, Bool.or_eq_true, Bool.and_eq_true,
      decide_eq_true_eq, beq_iff_eq] at h₁ h₂ ⊢
    rcases h₁ with h₁ | ⟨e₁, h₁⟩ <;> rcases h₂ with h₂ | ⟨e₂, h₂⟩
    · exact Or.inl (Nat.lt_trans h₁ h₂)
    · exact Or.inl (e₂ ▸ h₁)
    · exact Or.inl (e₁ ▸ h₂)
    · exact Or.inr ⟨e₁.trans e₂, charListLt_trans h₁ h₂⟩

theorem charListLt_asymm {l₁ l₂ : List Char} (h₁ : charListLt l₁ l₂ = true)
    (h₂ : charListLt l₂ l₁ = true) : False := by
  have := charListLt_trans h₁ h₂
  simp [charListLt_irrefl] at this

theorem charListLt_connex : ∀ {l₁ l₂ : List Char},
    charListLt l₁ l₂ = false → charListLt l₂ l₁ = false → l₁ = l₂
  | [], [], _, _ => rfl
  | [], _ :: _, h₁, _ => by simp [charListLt] at h₁
  | _ :: _, [], _, h₂ => by simp [charListLt] at h₂
  | a :: as, b :: bs, h₁, h₂ => by
    have hab : a.toNat = b.toNat := by
      by_contra hne
      rcases Nat.lt_or_ge a.toNat b.toNat with h | h
      · simp [charListLt, h] at h₁
      · have h' : b.toNat < a.toNat := by omega
        simp [charListLt, h'] at h₂
    have has : charListLt as bs = false := by
      cases hc : charListLt as bs
      · rfl
      · simp [charListLt, hab, hc] at h₁
    have hbs : charListLt bs as = false := by
      cases hc : charListLt bs as
      · rfl
      · simp [charListLt, hab, hc] at h₂
    rw [charToNat_inj hab, charListLt_connex has hbs]

theorem strLt_asymm {s t : String} (h₁ : strLt s t = true)
    (h₂ : strLt t s = true) : False :=
  charListLt_asymm h₁ h₂

theorem strLt_connex {s t : String} (h₁ : strLt s t = false)
    (h₂ : strLt t s = false) : s = t :=
  String.ext (charListLt_connex h₁ h₂)

theorem strLt_trans {a b c : String} (h₁ : strLt a b = true)
    (h₂ : strLt b c = true) : strLt a c = true :=
  charListLt_trans h₁ h₂

theorem strLe_total (s t : String) : strLe s t = true ∨ strLe t s = true := by
  cases h₁ : strLt t s
  · left; simp [strLe, h₁]
  · cases h₂ : strLt s t
    · right; simp [strLe, h₂]
    · exact (strLt_asymm h₂ h₁).elim

theorem strLe_trans {a b c : String} (h₁ : strLe a b = true)
    (h₂ : strLe b c = true) : strLe a c = true := by
  simp only [strLe, Bool.not_eq_true'] at h₁ h₂ ⊢
  cases hca : strLt c a
  · rfl
  · exfalso
    cases hbc : strLt b c
    · have hcb : c = b := strLt_connex h₂ hbc
      rw [hcb, h₁] at hca
      exact Bool.noConfusion hca
    · have hba : strLt b a = true := strLt_trans hbc hca
      rw [h₁] at hba
      exact Bool.noConfusion hba

theorem strLt_of_le_of_ne {a b : String} (h : strLe a b = true)
    (hne : a ≠ b) : strLt a b = true := by
  simp only [strLe, Bool.not_eq_true'] at h
  cases hab : strLt a b
  · exact absurd (strLt_connex hab h) hne
  · rfl

/-! ### Correctness of the key sort -/

theorem perm_insertSorted (x : String × Int) (l : List (String × Int)) :
    (insertSorted x l).Perm (x :: l) := by
  induction l with
  | nil => exact List.Perm.refl _
  | cons y ys ih =>
    simp only [insertSorted]
    split
    · exact List.Perm.refl _
    · exact (List.Perm.cons y ih).trans (List.Perm.swap x y ys)

theorem perm_sortByKey (l : List (String × Int)) : (sortByKey l).Perm l := by
  induction l with
  | nil => exact List.Perm.refl _
  | cons x xs ih =>
    exact (perm_insertSorted x (sortByKey xs)).trans (List.Perm.cons x ih)

theorem sorted_insertSorted (x : String × Int) {l : List (String × Int)}
    (hl : l.Pairwise fun a b => strLe a.1 b.1 = true) :
    (insertSorted x l).Pairwise fun a b => strLe a.1 b.1 = true := by
  induction l with
  | nil => simp [insertSorted]
  | cons y ys ih =>
    rcases List.pairwise_cons.mp hl with ⟨hy, hys⟩
    simp only [insertSorted]
    split
    · rename_i hxy
      refine List.pairwise_cons.mpr ⟨?_, hl⟩
      intro z hz
      rcases List.mem_cons.mp hz with rfl | hz
      · exact hxy
      · exact strLe_trans hxy (hy z hz)
    · rename_i hxy
      have hyx : strLe y.1 x.1 = true := by
        rcases strLe_total x.1 y.1 with h | h
        · exact absurd h hxy
        · exact h
      refine List.pairwise_cons.mpr ⟨?_, ih hys⟩
      intro z hz
      rcases List.mem_cons.mp ((perm_insertSorted x ys).mem_iff.mp hz)
        with rfl | hz'
      · exact hyx
      · exact hy z hz'

theorem sorted_sortByKey (l : List (String × Int)) :
    (sortByKey l).Pairwise fun a b => strLe a.1 b.1 = true := by
  induction l with
  | nil => simp [sortByKey]
  | cons x xs ih => exact sorted_insertSorted x ih

/-! ### Properties of the aggregation dict -/

theorem keys_dictAdd (g : List (String × Int)) (k : String) (v : Int) :
    (dictAdd g k v).map Prod.fst =
      if k ∈ g.map Prod.fst then g.map Prod.fst
      else g.map Prod.fst ++ [k] := by
  induction g with
  | nil => simp [dictAdd]
  | cons p rest ih =>
    obtain ⟨k', v'⟩ := p
    by_cases h : k' = k
    · subst h
      simp [dictAdd]
    · simp only [dictAdd, if_neg h, List.map_cons, ih]
      by_cases hm : k ∈ rest.map Prod.fst
      · rw [if_pos hm, if_pos (List.mem_cons.mpr (Or.inr hm))]
      · rw [if_neg hm, if_neg (fun hc => by
          rcases List.mem_cons.mp hc with he | hm'
          · exact h he.symm
          · exact hm hm')]
        simp

theorem nodup_keys_dictAdd {g : List (String × Int)} (k : String) (v : Int)
    (hn : (g.map Prod.fst).Nodup) : ((dictAdd g k v).map Prod.fst).Nodup := by
  rw [keys_dictAdd]
  by_cases hm : k ∈ g.map Prod.fst
  · simpa [hm] using hn
  · simp only [hm, if_false]
    refine List.Nodup.append hn (List.nodup_singleton k) ?_
    intro a ha hb
    rw [List.mem_singleton] at hb
    exact hm (hb ▸ ha)

theorem valueAt_dictAdd (g : List (String × Int)) (k k' : String) (v : Int) :
    valueAt (dictAdd g k v) k' = valueAt g k' + (if k = k' then v else 0) := by
  induction g with
  | nil =>
    simp only [dictAdd, valueAt]
    by_cases h : k = k' <;> simp [h]
  | cons p rest ih =>
    obtain ⟨k₀, v₀⟩ := p
    by_cases h₀ : k₀ = k
    · subst h₀
      simp only [dictAdd, if_pos rfl, valueAt]
      by_cases h' : k₀ = k' <;> simp [h', valueAt]
    · simp only [dictAdd, if_neg h₀, valueAt]
      by_cases h' : k₀ = k'
      · have hkk' : ¬k = k' := fun hh => h₀ (h'.trans hh.symm)
        simp [h', hkk']
      · simp [h', ih]

theorem sum_dictAdd (g : List (String × Int)) (k : String) (v : Int) :
    ((dictAdd g k v).map Prod.snd).sum = (g.map Prod.snd).sum + v := by
  induction g with
  | nil => simp [dictAdd]
  | cons p rest ih =>
    obtain ⟨k₀, v₀⟩ := p
    by_cases h₀ : k₀ = k
    · subst h₀
      simp [dictAdd]
      ring
    · simp [dictAdd, h₀, ih]
      ring

theorem mem_keys_buildDict (g cs : List (String × Int)) (a : String) :
    a ∈ (buildDict g cs).map Prod.fst ↔
      a ∈ g.map Prod.fst ∨ a ∈ cs.map Prod.fst := by
  induction cs generalizing g with
  | nil => simp [buildDict]
  | cons c cs ih =>
    simp only [buildDict, List.foldl_cons] at *
    rw [ih (dictAdd g c.1 c.2), keys_dictAdd]
    by_cases hm : c.1 ∈ g.map Prod.fst
    · simp only [if_pos hm, List.map_cons, List.mem_cons]
      constructor
      · rintro (h | h)
        · exact Or.inl h
        · exact Or.inr (Or.inr h)
      · rintro (h | rfl | h)
        · exact Or.inl h
        · exact Or.inl hm
        · exact Or.inr h
    · simp only [if_neg hm, List.mem_append, List.mem_singleton,
        List.map_cons, List.mem_cons]
      tauto

theorem nodup_keys_buildDict (g cs : List (String × Int))
    (hn : (g.map Prod.fst).Nodup) :
    ((buildDict g cs).map Prod.fst).Nodup := by
  induction cs generalizing g with
  | nil => exact hn
  | cons c cs ih =>
    simp only [buildDict, List.foldl_cons]
    exact ih _ (nodup_keys_dictAdd c.1 c.2 hn)

theorem valueAt_buildDict (g cs : List (String × Int)) (k : String) :
    valueAt (buildDict g cs) k = valueAt g k + keySum k cs := by
  induction cs generalizing g with
  | nil => simp [buildDict, keySum]
  | cons c cs ih =>
    simp only [buildDict, List.foldl_cons] at *
    rw [ih (dictAdd g c.1 c.2), valueAt_dictAdd]
    simp only [keySum]
    by_cases h : c.1 = k
    · simp [h, List.filter_cons, keySum]
      ring
    · simp [h, List.filter_cons, keySum]

theorem sum_buildDict (g cs : List (String × Int)) :
    ((buildDict g cs).map Prod.snd).sum =
      (g.map Prod.snd).sum + (cs.map Prod.snd).sum := by
  induction cs generalizing g with
  | nil => simp [buildDict]
  | cons c cs ih =>
    simp only [buildDict, List.foldl_cons] at *
    rw [ih (dictAdd g c.1 c.2), sum_dictAdd]
    simp only [List.map_cons, List.sum_cons]
    ring

theorem mem_iff_valueAt {g : List (String × Int)}
    (hn : (g.map Prod.fst).Nodup) (k : String) (v : Int) :
    (k, v) ∈ g ↔ (k ∈ g.map Prod.fst ∧ v = valueAt g k) := by
  induction g with
  | nil => simp
  | cons p rest ih =>
    obtain ⟨k₀, v₀⟩ := p
    simp only [List.map_cons, List.nodup_cons] at hn
    constructor
    · intro hmem
      rcases List.mem_cons.mp hmem with heq | hmem'
      · obtain ⟨rfl, rfl⟩ : k = k₀ ∧ v = v₀ :=
          ⟨congrArg Prod.fst heq, congrArg Prod.snd heq⟩
        refine ⟨List.mem_cons_self _ _, ?_⟩
        simp [valueAt]
      · have hk : k ∈ rest.map Prod.fst :=
          List.mem_map_of_mem Prod.fst hmem'
        have hkk₀ : k₀ ≠ k := fun e => hn.1 (e ▸ hk)
        refine ⟨List.mem_cons.mpr (Or.inr hk), ?_⟩
        have hv := ((ih hn.2).mp hmem').2
        simpa [valueAt, hkk₀] using hv
    · rintro ⟨hmem, rfl⟩
      rcases List.mem_cons.mp (List.map_cons Prod.fst (k₀, v₀) rest ▸ hmem)
        with rfl | hk
      · simp only [valueAt, if_pos rfl]
        exact List.mem_cons_self _ _
      · have hkk₀ : k₀ ≠ k := fun e => hn.1 (e ▸ hk)
        have hval : valueAt ((k₀, v₀) :: rest) k = valueAt rest k := by
          simp [valueAt, hkk₀]
        exact List.mem_cons_of_mem _ ((ih hn.2).mpr ⟨hk, hval⟩)

theorem keySum_perm {cs cs' : List (String × Int)} (hp : cs.Perm cs')
    (k : String) : keySum k cs = keySum k cs' :=
  List.Perm.sum_eq (List.Perm.map Prod.snd (List.Perm.filter _ hp))

/-- Dicts built from permuted contribution lists are permutations of each
other. -/
theorem buildDict_perm {cs cs' : List (String × Int)} (hp : cs.Perm cs') :
    (buildDict [] cs).Perm (buildDict [] cs') := by
  have h₁ := nodup_keys_buildDict [] cs List.nodup_nil
  have h₂ := nodup_keys_buildDict [] cs' List.nodup_nil
  refine (List.perm_ext_iff_of_nodup (List.Nodup.of_map _ h₁)
    (List.Nodup.of_map _ h₂)).mpr ?_
  rintro ⟨k, v⟩
  rw [mem_iff_valueAt h₁, mem_iff_valueAt h₂, mem_keys_buildDict,
    mem_keys_buildDict, valueAt_buildDict, valueAt_buildDict, keySum_perm hp]
  constructor
  · rintro ⟨h | h, hv⟩
    · simp at h
    · exact ⟨Or.inr ((hp.map Prod.fst).mem_iff.mp h), hv⟩
  · rintro ⟨h | h, hv⟩
    · simp at h
    · exact ⟨Or.inr ((hp.map Prod.fst).mem_iff.mpr h), hv⟩

/-- Sorting two permuted dicts with duplicate-free keys yields the same
list. -/
theorem sortByKey_eq_of_perm {l l' : List (String × Int)} (hp : l.Perm l')
    (hn : (l.map Prod.fst).Nodup) : sortByKey l = sortByKey l' := by
  have hn' : (l'.map Prod.fst).Nodup := ((hp.map Prod.fst).nodup_iff).mp hn
  have hperm : (sortByKey l).Perm (sortByKey l') :=
    ((perm_sortByKey l).trans hp).trans (perm_sortByKey l').symm
  have hn₁ : ((sortByKey l).map Prod.fst).Nodup :=
    (((perm_sortByKey l).map Prod.fst).nodup_iff).mpr hn
  have hn₂ : ((sortByKey l').map Prod.fst).Nodup :=
    (((perm_sortByKey l').map Prod.fst).nodup_iff).mpr hn'
  have hlt₁ : (sortByKey l).Pairwise fun a b => strLt a.1 b.1 = true :=
    ((sorted_sortByKey l).and (List.pairwise_map.mp hn₁)).imp
      fun h => strLt_of_le_of_ne h.1 h.2
  have hlt₂ : (sortByKey l').Pairwise fun a b => strLt a.1 b.1 = true :=
    ((sorted_sortByKey l').and (List.pairwise_map.mp hn₂)).imp
      fun h => strLt_of_le_of_ne h.1 h.2
  haveI : IsAntisymm (String × Int) (fun a b => strLt a.1 b.1 = true) :=
    ⟨fun a b h₁' h₂' => (strLt_asymm h₁' h₂').elim⟩
  exact List.eq_of_perm_of_sorted hperm hlt₁ hlt₂

/-! ### The aggregation loop -/

theorem except_bind_ok {ε α β : Type} (a : α) (k : α → Except ε β) :
    (Except.ok a >>= k) = k a := rfl

theorem except_bind_error {ε α β : Type} (e : ε) (k : α → Except ε β) :
    ((Except.error e : Except ε α) >>= k) = Except.error e := rfl

/-- When every record's date parses, the loop of `group_data` succeeds and
accumulates exactly the contributions of the records that pass the filter. -/
theorem foldlM_groupStep_ok (group_by : String)
    (date_from date_to : Option DateTime) {data : List Record}
    (g : List (String × Int))
    (h : ∀ r ∈ data, (parseDateTime r.date_checked).isSome) :
    data.foldlM (groupStep group_by date_from date_to) g =
      .ok (buildDict g
        (data.filterMap (recordContrib group_by date_from date_to))) := by
  induction data generalizing g with
  | nil => rfl
  | cons r rs ih =>
    obtain ⟨dt, hdt⟩ :=
      Option.isSome_iff_exists.mp (h r (List.mem_cons_self r rs))
    have hrest : ∀ x ∈ rs, (parseDateTime x.date_checked).isSome :=
      fun x hx => h x (List.mem_cons_of_mem r hx)
    simp only [List.foldlM_cons, groupStep, recordContrib, hdt,
      List.filterMap_cons]
    cases hc₁ : (match date_from with
        | some f => DateTime.lt dt f | none => false) with
    | true =>
      simp only [if_pos rfl, except_bind_ok]
      exact ih g hrest
    | false =>
      cases hc₂ : (match date_to with
          | some t => DateTime.lt t dt | none => false) with
      | true =>
        simp only [Bool.false_eq_true, if_false, if_pos rfl, except_bind_ok]
        exact ih g hrest
      | false =>
        simp only [Bool.false_eq_true, if_false, except_bind_ok]
        rw [ih _ hrest]
        rfl

/-- If some record's date fails to parse, the loop of `group_data` raises a
`MalformedRecord` error naming one of the offending values. -/
theorem foldlM_groupStep_error (group_by : String)
    (date_from date_to : Option DateTime) {data : List Record}
    (g : List (String × Int))
    (h : ∃ r ∈ data, parseDateTime r.date_checked = none) :
    ∃ r ∈ data, parseDateTime r.date_checked = none ∧
      data.foldlM (groupStep group_by date_from date_to) g =
        .error (.malformedRecord r.date_checked) := by
  induction data generalizing g with
  | nil =>
    obtain ⟨r, hr, _⟩ := h
    exact absurd hr (List.not_mem_nil r)
  | cons r rs ih =>
    cases hdt : parseDateTime r.date_checked with
    | none =>
      refine ⟨r, List.mem_cons_self r rs, hdt, ?_⟩
      simp only [List.foldlM_cons, groupStep, hdt, except_bind_error]
    | some dt =>
      have h' : ∃ x ∈ rs, parseDateTime x.date_checked = none := by
        obtain ⟨x, hx, hxn⟩ := h
        rcases List.mem_cons.mp hx with rfl | hx'
        · rw [hdt] at hxn
          cases hxn
        · exact ⟨x, hx', hxn⟩
      simp only [List.foldlM_cons, groupStep, hdt]
      cases hc₁ : (match date_from with
          | some f => DateTime.lt dt f | none => false) with
      | true =>
        simp only [if_pos rfl, except_bind_ok]
        obtain ⟨x, hx, hxn, heq⟩ := ih g h'
        exact ⟨x, List.mem_cons_of_mem r hx, hxn, heq⟩
      | false =>
        cases hc₂ : (match date_to with
            | some t => DateTime.lt t dt | none => false) with
        | true =>
          simp only [Bool.false_eq_true, if_false, if_pos rfl, except_bind_ok]
          obtain ⟨x, hx, hxn, heq⟩ := ih g h'
          exact ⟨x, List.mem_cons_of_mem r hx, hxn, heq⟩
        | false =>
          simp only [Bool.false_eq_true, if_false, except_bind_ok]
          obtain ⟨x, hx, hxn, heq⟩ :=
            ih (dictAdd g (bucketKey group_by dt) (r.total_users.getD 0)) h'
          exact ⟨x, List.mem_cons_of_mem r hx, hxn, heq⟩

/-- The code's skip conditions (`dt < date_from`, `dt > date_to`) negate the
inclusive-bounds predicate. -/
theorem not_skip_iff_inBounds (date_from date_to : Option DateTime)
    (dt : DateTime) :
    ((match date_from with | some f => DateTime.lt dt f | none => false) = false
      ∧ (match date_to with | some t => DateTime.lt t dt | none => false) = false)
    ↔ inBounds date_from date_to dt = true := by
  have flip : ∀ a b : DateTime, DateTime.lt a b = false ↔ DateTime.le b a = true := by
    intro a b
    simp only [DateTime.lt, DateTime.le, Bool.or_eq_true, Bool.and_eq_true,
      decide_eq_true_eq, beq_iff_eq, Bool.eq_false_iff, ne_eq, not_or,
      not_and, Nat.not_lt]
    constructor
    · intro h
      omega
    · intro h
      omega
  cases date_from with
  | none =>
    cases date_to with
    | none => simp [inBounds]
    | some t => simp [inBounds, flip]
  | some f =>
    cases date_to with
    | none => simp [inBounds, flip]
    | some t => simp [inBounds, flip]

/-! ### The annotation pass -/

/-- The annotation loop is the `filterMap` of its per-event body. -/
theorem eventAnnotations_eq_filterMap (group_by : String)
    (date_from date_to : Option DateTime) (xs : List String)
    (events : List KnownEvent) :
    eventAnnotations group_by date_from date_to xs events =
      events.filterMap
        (annotateEvent group_by date_from date_to (key_to_index xs)) := by
  suffices h : ∀ (evs : List KnownEvent) (acc : List (Nat × String)),
      evs.foldl (fun acc ev =>
        match annotateEvent group_by date_from date_to (key_to_index xs) ev with
        | some a => acc ++ [a]
        | none => acc) acc =
        acc ++ evs.filterMap
          (annotateEvent group_by date_from date_to (key_to_index xs)) by
    simpa using h events []
  intro evs
  induction evs with
  | nil => intro acc; simp
  | cons e es ih =>
    intro acc
    cases he : annotateEvent group_by date_from date_to (key_to_index xs) e with
    | none => simp [List.foldl_cons, he, List.filterMap_cons, ih]
    | some a => simp [List.foldl_cons, he, List.filterMap_cons, ih]

theorem mem_dictInsert {d : List (String × Nat)} {k : String} {v : Nat}
    {p : String × Nat} (hp : p ∈ dictInsert d k v) : p ∈ d ∨ p = (k, v) := by
  induction d with
  | nil =>
    simp only [dictInsert] at hp
    exact Or.inr (List.mem_singleton.mp hp)
  | cons q rest ih =>
    obtain ⟨k', v'⟩ := q
    by_cases h : k' = k
    · subst h
      simp only [dictInsert, if_pos rfl] at hp
      rcases List.mem_cons.mp hp with rfl | hp'
      · exact Or.inr rfl
      · exact Or.inl (List.mem_cons_of_mem _ hp')
    · simp only [dictInsert, if_neg h] at hp
      rcases List.mem_cons.mp hp with rfl | hp'
      · exact Or.inl (List.mem_cons_self _ _)
      · rcases ih hp' with h' | h'
        · exact Or.inl (List.mem_cons_of_mem _ h')
        · exact Or.inr h'

theorem lookup_mem {d : List (String × Nat)} {k : String} {i : Nat}
    (h : d.lookup k = some i) : (k, i) ∈ d := by
  induction d with
  | nil => cases h
  | cons p rest ih =>
    obtain ⟨k', v'⟩ := p
    by_cases hk : k = k'
    · subst hk
      simp only [List.lookup, beq_self_eq_true] at h
      cases h
      exact List.mem_cons_self _ _
    · have hbeq : (k == k') = false := beq_false_of_ne hk
      simp only [List.lookup, hbeq] at h
      exact List.mem_cons_of_mem _ (ih h)

/-- Every index in `key_to_index xs` is a valid index into `xs`. -/
theorem key_to_index_values_lt (xs : List String) :
    ∀ p ∈ key_to_index xs, p.2 < xs.length := by
  have general : ∀ (l : List (Nat × String)) (d : List (String × Nat)) (n : Nat),
      (∀ p ∈ d, p.2 < n) → (∀ q ∈ l, q.1 < n) →
      ∀ p ∈ l.foldl (fun d p => dictInsert d p.2 p.1) d, p.2 < n := by
    intro l
    induction l with
    | nil => exact fun d n hd _ p hp => hd p hp
    | cons q l ih =>
      intro d n hd hl p hp
      refine ih _ n ?_ (fun x hx => hl x (List.mem_cons_of_mem q hx)) p hp
      intro x hx
      rcases mem_dictInsert hx with hx' | rfl
      · exact hd x hx'
      · exact hl q (List.mem_cons_self q l)
  intro p hp
  refine general xs.enum [] xs.length (by simp) ?_ p hp
  rintro ⟨i, a⟩ hq
  rw [List.mk_mem_enum_iff_getElem?] at hq
  exact (List.getElem?_eq_some.mp hq).1

/-- Characterization of the loop body on a parseable record: the dict is
updated iff the record lies within the inclusive bounds. -/
theorem groupStep_eq_ite (group_by : String)
    (date_from date_to : Option DateTime) (g : List (String × Int))
    (r : Record) (dt : DateTime)
    (hp : parseDateTime r.date_checked = some dt) :
    groupStep group_by date_from date_to g r =
      .ok (if inBounds date_from date_to dt then
        dictAdd g (bucketKey group_by dt) (r.total_users.getD 0) else g) := by
  simp only [groupStep, hp]
  cases hc₁ : (match date_from with
      | some f => DateTime.lt dt f | none => false) with
  | true =>
    have hb : inBounds date_from date_to dt = false := by
      cases hb : inBounds date_from date_to dt
      · rfl
      · have hns := (not_skip_iff_inBounds date_from date_to dt).mpr hb
        rw [hns.1] at hc₁
        exact Bool.noConfusion hc₁
    simp [hb]
  | false =>
    cases hc₂ : (match date_to with
        | some t => DateTime.lt t dt | none => false) with
    | true =>
      have hb : inBounds date_from date_to dt = false := by
        cases hb : inBounds date_from date_to dt
        · rfl
        · have hns := (not_skip_iff_inBounds date_from date_to dt).mpr hb
          rw [hns.2] at hc₂
          exact Bool.noConfusion hc₂
      simp [hb]
    | false =>
      have hb := (not_skip_iff_inBounds date_from date_to dt).mp ⟨hc₁, hc₂⟩
      simp [hb]

/-- Like `groupStep_eq_ite`, for the contribution function. -/
theorem recordContrib_eq_ite (group_by : String)
    (date_from date_to : Option DateTime) (r : Record) (dt : DateTime)
    (hp : parseDateTime r.date_checked = some dt) :
    recordContrib group_by date_from date_to r =
      if inBounds date_from date_to dt then
        some (bucketKey group_by dt, r.total_users.getD 0) else none := by
  simp only [recordContrib, hp]
  cases hc₁ : (match date_from with
      | some f => DateTime.lt dt f | none => false) with
  | true =>
    have hb : inBounds date_from date_to dt = false := by
      cases hb : inBounds date_from date_to dt
      · rfl
      · have hns := (not_skip_iff_inBounds date_from date_to dt).mpr hb
        rw [hns.1] at hc₁
        exact Bool.noConfusion hc₁
    simp [hb]
  | false =>
    cases hc₂ : (match date_to with
        | some t => DateTime.lt t dt | none => false) with
    | true =>
      have hb : inBounds date_from date_to dt = false := by
        cases hb : inBounds date_from date_to dt
        · rfl
        · have hns := (not_skip_iff_inBounds date_from date_to dt).mpr hb
          rw [hns.2] at hc₂
          exact Bool.noConfusion hc₂
      simp [hb]
    | false =>
      have hb := (not_skip_iff_inBounds date_from date_to dt).mp ⟨hc₁, hc₂⟩
      simp [hb]

/-- The second components of the contributions are the included counts. -/
theorem contribs_map_snd (group_by : String)
    (date_from date_to : Option DateTime) (data : List Record) :
    (data.filterMap (recordContrib group_by date_from date_to)).map Prod.snd =
      data.filterMap (includedCount date_from date_to) := by
  induction data with
  | nil => rfl
  | cons r rs ih =>
    cases hdt : parseDateTime r.date_checked with
    | none =>
      have h₁ : recordContrib group_by date_from date_to r = none := by
        simp [recordContrib, hdt]
      have h₂ : includedCount date_from date_to r = none := by
        simp [includedCount, hdt]
      simp [List.filterMap_cons, h₁, h₂, ih]
    | some dt =>
      rw [List.filterMap_cons, List.filterMap_cons,
        recordContrib_eq_ite group_by date_from date_to r dt hdt]
      have h₂ : includedCount date_from date_to r =
          if inBounds date_from date_to dt then
            some (r.total_users.getD 0) else none := by
        simp [includedCount, hdt]
      rw [h₂]
      cases hb : inBounds date_from date_to dt <;> simp [ih]

/-- Anatomy of a successful `group_data` call. -/
theorem group_data_ok_shape {data : List Record} {group_by : String}
    {date_from date_to : Option DateTime} {xs : List String} {ys : List Int}
    (hok : group_data data group_by date_from date_to = .ok (xs, ys)) :
    ∃ g, data.foldlM (groupStep group_by date_from date_to) [] = .ok g ∧
      xs = (sortByKey g).map Prod.fst ∧ ys = (sortByKey g).map Prod.snd ∧
      (group_by == "day" || group_by == "week" || group_by == "month") = true := by
  by_cases hguard :
      (group_by == "day" || group_by == "week" || group_by == "month") = true
  · cases hfold : data.foldlM (groupStep group_by date_from date_to) [] with
    | error e =>
      rw [group_data, if_pos hguard] at hok
      rw [hfold] at hok
      cases hok
    | ok g =>
      refine ⟨g, rfl, ?_⟩
      rw [group_data, if_pos hguard] at hok
      rw [hfold, except_bind_ok] at hok
      cases hok
      exact ⟨rfl, rfl, hguard⟩
  · rw [group_data, if_neg hguard] at hok
    cases hok

/-- A successful `group_data` call means every record's date parsed. -/
theorem group_data_ok_parses {data : List Record} {group_by : String}
    {date_from date_to : Option DateTime} {g : List (String × Int)}
    (hfold : data.foldlM (groupStep group_by date_from date_to) [] = .ok g) :
    ∀ r ∈ data, (parseDateTime r.date_checked).isSome := by
  by_contra hno
  push_neg at hno
  obtain ⟨r, hr, hnone⟩ := hno
  have hbad : ∃ r ∈ data, parseDateTime r.date_checked = none :=
    ⟨r, hr, Option.not_isSome_iff_eq_none.mp (by simpa using hnone)⟩
  obtain ⟨x, _, _, heq⟩ := foldlM_groupStep_error
    group_by date_from date_to [] hbad
  rw [hfold] at heq
  cases heq

/-! ### The claims -/

/-- C9: a `group_by` value outside `{day, week, month}` makes `group_data`
fail with `InvalidArgument` for every record list and bounds — in
particular before any record is parsed or aggregated. -/
theorem C9_invalid_granularity (group_by : String)
    (hgb : group_by ≠ "day" ∧ group_by ≠ "week" ∧ group_by ≠ "month") :
    ∀ (data : List Record) (date_from date_to : Option DateTime),
      group_data data group_by date_from date_to =
        .error (.invalidArgument group_by) := by
  intro data date_from date_to
  have h₁ : (group_by == "day") = false := beq_false_of_ne hgb.1
  have h₂ : (group_by == "week") = false := beq_false_of_ne hgb.2.1
  have h₃ : (group_by == "month") = false := beq_false_of_ne hgb.2.2
  simp [group_data, h₁, h₂, h₃]

theorem C9_witness :
    group_data [⟨1, some 10, "not-a-date"⟩] "year" none none =
      .error (.invalidArgument "year") :=
  C9_invalid_granularity "year" (by decide)
    [⟨1, some 10, "not-a-date"⟩] none none

/-- C8: the cached snapshot is reported stale iff the calendar year or the
calendar month of its modification time differs from now's; in particular a
snapshot from day 1 of a month is still fresh on day 31 of the same month. -/
theorem C8_freshness_policy :
    (∀ mod_date now : DateTime,
      cacheIsStale mod_date now = true ↔
        (mod_date.year ≠ now.year ∨ mod_date.month ≠ now.month)) ∧
    cacheIsStale ⟨2025, 3, 1, 0, 0, 0⟩ ⟨2025, 3, 31, 23, 59, 59⟩ = false := by
  constructor
  · intro m n
    simp [cacheIsStale]
  · decide

/-- C3: if any record's `date_checked` fails to parse then `group_data`, for
any valid granularity and any bounds, fails with a `MalformedRecord` error
naming an offending value — no partial aggregate is returned, whether or not
the offending record would have passed the date filter. -/
theorem C3_malformed_record_aborts (data : List Record) (group_by : String)
    (date_from date_to : Option DateTime)
    (hgb : group_by = "day" ∨ group_by = "week" ∨ group_by = "month")
    (hbad : ∃ r ∈ data, parseDateTime r.date_checked = none) :
    ∃ r ∈ data, parseDateTime r.date_checked = none ∧
      group_data data group_by date_from date_to =
        .error (.malformedRecord r.date_checked) := by
  have hguard :
      (group_by == "day" || group_by == "week" || group_by == "month") = true := by
    rcases hgb with rfl | rfl | rfl <;> rfl
  obtain ⟨r, hr, hn, heq⟩ := foldlM_groupStep_error
    group_by date_from date_to [] hbad
  refine ⟨r, hr, hn, ?_⟩
  rw [group_data, if_pos hguard, heq, except_bind_error]

theorem C3_witness :
    ∃ r ∈ [(⟨1, some 10, "2025-01-01 00:00:00"⟩ : Record),
           ⟨2, some 5, "2025-13-01 00:00:00"⟩],
      parseDateTime r.date_checked = none ∧
        group_data [⟨1, some 10, "2025-01-01 00:00:00"⟩,
            ⟨2, some 5, "2025-13-01 00:00:00"⟩] "month"
            (some ⟨2026, 1, 1, 0, 0, 0⟩) none =
          .error (.malformedRecord r.date_checked) :=
  C3_malformed_record_aborts
    [⟨1, some 10, "2025-01-01 00:00:00"⟩, ⟨2, some 5, "2025-13-01 00:00:00"⟩]
    "month" (some ⟨2026, 1, 1, 0, 0, 0⟩) none
    (Or.inr (Or.inr rfl)) (by decide)

/-- C4: an event whose date fails to parse is skipped while processing
continues: wherever the malformed event sits, the annotation pass still
succeeds and produces exactly the annotations of the remaining well-formed
events. -/
theorem C4_malformed_event_skipped (group_by : String)
    (date_from date_to : Option DateTime) (xs : List String)
    (evs₁ evs₂ : List KnownEvent) (ev : KnownEvent)
    (hbad : parseDateTime ev.date = none) :
    eventAnnotations group_by date_from date_to xs (evs₁ ++ ev :: evs₂) =
      eventAnnotations group_by date_from date_to xs (evs₁ ++ evs₂) := by
  have hnone :
      annotateEvent group_by date_from date_to (key_to_index xs) ev = none := by
    simp [annotateEvent, hbad]
  simp [eventAnnotations_eq_filterMap, List.filterMap_append,
    List.filterMap_cons, hnone]

theorem C4_witness :
    eventAnnotations "month" none none ["2025-01", "2025-02"]
        ([⟨"a", "2025-01-20 00:00:00"⟩] ++ ⟨"bad", "nope"⟩ ::
          [⟨"b", "2025-02-02 00:00:00"⟩]) =
      eventAnnotations "month" none none ["2025-01", "2025-02"]
        ([⟨"a", "2025-01-20 00:00:00"⟩] ++ [⟨"b", "2025-02-02 00:00:00"⟩]) :=
  C4_malformed_event_skipped "month" none none ["2025-01", "2025-02"]
    [⟨"a", "2025-01-20 00:00:00"⟩] [⟨"b", "2025-02-02 00:00:00"⟩]
    ⟨"bad", "nope"⟩ (by decide)

/-- C6: with a parseable `date_checked`, the loop body of `group_data`
aggregates the record iff `date_from <= date_checked <= date_to` holds for
whichever bounds are supplied (both inclusive, so equality with either bound
includes the record); an unsupplied bound imposes no constraint; otherwise
the dict is left unchanged. -/
theorem C6_filter_inclusive (group_by : String)
    (date_from date_to : Option DateTime) (g : List (String × Int))
    (r : Record) (dt : DateTime)
    (hp : parseDateTime r.date_checked = some dt) :
    groupStep group_by date_from date_to g r =
      .ok (if (date_from.all fun b => DateTime.le b dt) &&
            (date_to.all fun b => DateTime.le dt b) then
        dictAdd g (bucketKey group_by dt) (r.total_users.getD 0) else g) :=
  groupStep_eq_ite group_by date_from date_to g r dt hp

theorem C6_witness :
    groupStep "month" (some ⟨2025, 1, 15, 0, 0, 0⟩)
        (some ⟨2025, 1, 15, 0, 0, 0⟩) []
        ⟨2, some 5, "2025-01-15 00:00:00"⟩ =
      .ok (if ((some ⟨2025, 1, 15, 0, 0, 0⟩ : Option DateTime).all
              fun b => DateTime.le b ⟨2025, 1, 15, 0, 0, 0⟩) &&
            ((some ⟨2025, 1, 15, 0, 0, 0⟩ : Option DateTime).all
              fun b => DateTime.le ⟨2025, 1, 15, 0, 0, 0⟩ b) then
        dictAdd [] (bucketKey "month" ⟨2025, 1, 15, 0, 0, 0⟩)
          ((some (5 : Int)).getD 0) else []) :=
  C6_filter_inclusive "month" (some ⟨2025, 1, 15, 0, 0, 0⟩)
    (some ⟨2025, 1, 15, 0, 0, 0⟩) [] ⟨2, some 5, "2025-01-15 00:00:00"⟩
    ⟨2025, 1, 15, 0, 0, 0⟩ (by decide)

/-- C2: when `group_data` succeeds, the y-values sum to the total of
`total_users` (an absent count contributing 0) over exactly the input
records that satisfy the inclusive date filter. -/
theorem C2_sum_conservation (data : List Record) (group_by : String)
    (date_from date_to : Option DateTime) (xs : List String) (ys : List Int)
    (hok : group_data data group_by date_from date_to = .ok (xs, ys)) :
    ys.sum = (data.filterMap (includedCount date_from date_to)).sum := by
  obtain ⟨g, hfold, hxs, hys, hguard⟩ := group_data_ok_shape hok
  have hparse := group_data_ok_parses hfold
  rw [foldlM_groupStep_ok group_by date_from date_to [] hparse] at hfold
  injection hfold with hfold
  subst hfold
  subst hys
  have h₁ : ((sortByKey (buildDict []
        (data.filterMap (recordContrib group_by date_from date_to)))).map
          Prod.snd).sum =
      ((buildDict []
        (data.filterMap (recordContrib group_by date_from date_to))).map
          Prod.snd).sum :=
    ((perm_sortByKey _).map Prod.snd).sum_eq
  rw [h₁, sum_buildDict, ← contribs_map_snd group_by date_from date_to data]
  simp

theorem C2_witness :
    ([15, 7] : List Int).sum =
      (([⟨1, some 10, "2025-01-01 00:00:00"⟩, ⟨2, some 5, "2025-01-15 00:00:00"⟩,
          ⟨3, some 7, "2025-02-01 00:00:00"⟩] : List Record).filterMap
        (includedCount none none)).sum :=
  C2_sum_conservation
    [⟨1, some 10, "2025-01-01 00:00:00"⟩, ⟨2, some 5, "2025-01-15 00:00:00"⟩,
      ⟨3, some 7, "2025-02-01 00:00:00"⟩]
    "month" none none ["2025-01", "2025-02"] [15, 7] (by decide)

/-- Dissection of a successful per-event annotation: the index comes from a
`key_to_index` lookup of the event's bucket key. -/
theorem annotateEvent_some {group_by : String}
    {date_from date_to : Option DateTime} {k2i : List (String × Nat)}
    {ev : KnownEvent} {p : Nat × String}
    (h : annotateEvent group_by date_from date_to k2i ev = some p) :
    ∃ dt, parseDateTime ev.date = some dt ∧
      k2i.lookup (bucketKey group_by dt) = some p.1 := by
  cases hdt : parseDateTime ev.date with
  | none => simp [annotateEvent, hdt] at h
  | some dt =>
    refine ⟨dt, rfl, ?_⟩
    simp only [annotateEvent, hdt] at h
    cases hc₁ : (match date_from with
        | some f => DateTime.lt dt f | none => false) with
    | true => simp [hc₁] at h
    | false =>
      simp only [hc₁, Bool.false_eq_true, if_false] at h
      cases hc₂ : (match date_to with
          | some t => DateTime.lt t dt | none => false) with
      | true => simp [hc₂] at h
      | false =>
        simp only [hc₂, Bool.false_eq_true, if_false] at h
        cases hlk : k2i.lookup (bucketKey group_by dt) with
        | none => rw [hlk] at h; cases h
        | some j =>
          rw [hlk] at h
          cases h
          simp [hlk]

/-- C10: the two lists returned by `group_data` have equal length, and every
index emitted by the annotation pass is a valid index into the sums list. -/
theorem C10_annotation_indices_in_range (data : List Record)
    (group_by : String) (date_from date_to : Option DateTime)
    (xs : List String) (ys : List Int) (events : List KnownEvent)
    (hok : group_data data group_by date_from date_to = .ok (xs, ys)) :
    xs.length = ys.length ∧
      ∀ p ∈ eventAnnotations group_by date_from date_to xs events,
        p.1 < ys.length := by
  obtain ⟨g, hfold, hxs, hys, hguard⟩ := group_data_ok_shape hok
  have hlen : xs.length = ys.length := by
    rw [hxs, hys]
    simp
  refine ⟨hlen, ?_⟩
  intro p hp
  rw [eventAnnotations_eq_filterMap] at hp
  obtain ⟨ev, _, hsome⟩ := List.mem_filterMap.mp hp
  obtain ⟨dt, _, hlk⟩ := annotateEvent_some hsome
  have hb := key_to_index_values_lt xs _ (lookup_mem hlk)
  omega

theorem C10_witness :
    (["2025-01", "2025-02"] : List String).length = ([15, 7] : List Int).length ∧
      ∀ p ∈ eventAnnotations "month" none none ["2025-01", "2025-02"]
          [⟨"a", "2025-01-20 00:00:00"⟩, ⟨"b", "2025-01-21 00:00:00"⟩],
        p.1 < ([15, 7] : List Int).length :=
  C10_annotation_indices_in_range
    [⟨1, some 10, "2025-01-01 00:00:00"⟩, ⟨2, some 5, "2025-01-15 00:00:00"⟩,
      ⟨3, some 7, "2025-02-01 00:00:00"⟩]
    "month" none none ["2025-01", "2025-02"] [15, 7]
    [⟨"a", "2025-01-20 00:00:00"⟩, ⟨"b", "2025-01-21 00:00:00"⟩] (by decide)

/-- C7: a well-formed, in-range event whose bucket key (computed with the
grouping rule) is present in the key-to-index mapping is emitted as
`(index, label)` at its position in the input order — events sharing an
index are all emitted, without deduplication — and an event whose key is
absent is dropped. -/
theorem C7_event_anchoring (group_by : String)
    (date_from date_to : Option DateTime) (xs : List String)
    (evs₁ evs₂ : List KnownEvent) (ev : KnownEvent) (dt : DateTime) (i : Nat)
    (hp : parseDateTime ev.date = some dt)
    (hin : inBounds date_from date_to dt = true) :
    ((key_to_index xs).lookup (bucketKey group_by dt) = some i →
      eventAnnotations group_by date_from date_to xs (evs₁ ++ ev :: evs₂) =
        eventAnnotations group_by date_from date_to xs evs₁ ++
          (i, ev.label) ::
            eventAnnotations group_by date_from date_to xs evs₂) ∧
    ((key_to_index xs).lookup (bucketKey group_by dt) = none →
      eventAnnotations group_by date_from date_to xs (evs₁ ++ ev :: evs₂) =
        eventAnnotations group_by date_from date_to xs evs₁ ++
          eventAnnotations group_by date_from date_to xs evs₂) := by
  obtain ⟨hc₁, hc₂⟩ := (not_skip_iff_inBounds date_from date_to dt).mpr hin
  constructor
  · intro hlk
    have hev : annotateEvent group_by date_from date_to (key_to_index xs) ev =
        some (i, ev.label) := by
      simp [annotateEvent, hp, hc₁, hc₂, hlk]
    simp [eventAnnotations_eq_filterMap, List.filterMap_append,
      List.filterMap_cons, hev]
  · intro hlk
    have hev : annotateEvent group_by date_from date_to (key_to_index xs) ev =
        none := by
      simp [annotateEvent, hp, hc₁, hc₂, hlk]
    simp [eventAnnotations_eq_filterMap, List.filterMap_append,
      List.filterMap_cons, hev]

theorem C7_witness :
    ((key_to_index ["2025-01", "2025-02"]).lookup
        (bucketKey "month" ⟨2025, 1, 20, 0, 0, 0⟩) = some 0 →
      eventAnnotations "month" none none ["2025-01", "2025-02"]
          ([⟨"x", "2025-01-05 00:00:00"⟩] ++ ⟨"a", "2025-01-20 00:00:00"⟩ ::
            [⟨"y", "2025-01-21 00:00:00"⟩]) =
        eventAnnotations "month" none none ["2025-01", "2025-02"]
            [⟨"x", "2025-01-05 00:00:00"⟩] ++
          (0, "a") :: eventAnnotations "month" none none
            ["2025-01", "2025-02"] [⟨"y", "2025-01-21 00:00:00"⟩]) ∧
    ((key_to_index ["2025-01", "2025-02"]).lookup
        (bucketKey "month" ⟨2025, 1, 20, 0, 0, 0⟩) = none →
      eventAnnotations "month" none none ["2025-01", "2025-02"]
          ([⟨"x", "2025-01-05 00:00:00"⟩] ++ ⟨"a", "2025-01-20 00:00:00"⟩ ::
            [⟨"y", "2025-01-21 00:00:00"⟩]) =
        eventAnnotations "month" none none ["2025-01", "2025-02"]
            [⟨"x", "2025-01-05 00:00:00"⟩] ++
          eventAnnotations "month" none none ["2025-01", "2025-02"]
            [⟨"y", "2025-01-21 00:00:00"⟩]) :=
  C7_event_anchoring "month" none none ["2025-01", "2025-02"]
    [⟨"x", "2025-01-05 00:00:00"⟩] [⟨"y", "2025-01-21 00:00:00"⟩]
    ⟨"a", "2025-01-20 00:00:00"⟩ ⟨2025, 1, 20, 0, 0, 0⟩ 0
    (by decide) (by decide)

/-- C5: a successful `group_data` call returns bucket keys strictly
increasing under string comparison (so sorted ascending, with no duplicate
keys), and the result is unchanged under any permutation of the input
records. -/
theorem C5_sorted_and_order_independent (data : List Record)
    (group_by : String) (date_from date_to : Option DateTime)
    (xs : List String) (ys : List Int)
    (hok : group_data data group_by date_from date_to = .ok (xs, ys)) :
    xs.Pairwise (fun a b => strLt a b = true) ∧
      ∀ data' : List Record, data.Perm data' →
        group_data data' group_by date_from date_to = .ok (xs, ys) := by
  obtain ⟨g, hfold, hxs, hys, hguard⟩ := group_data_ok_shape hok
  have hparse := group_data_ok_parses hfold
  rw [foldlM_groupStep_ok group_by date_from date_to [] hparse] at hfold
  injection hfold with hfold
  subst hfold
  have hnodup : ((buildDict []
      (data.filterMap (recordContrib group_by date_from date_to))).map
        Prod.fst).Nodup :=
    nodup_keys_buildDict [] _ List.nodup_nil
  constructor
  · have hn₁ : ((sortByKey (buildDict []
        (data.filterMap (recordContrib group_by date_from date_to)))).map
          Prod.fst).Nodup :=
      (((perm_sortByKey _).map Prod.fst).nodup_iff).mpr hnodup
    have hstrict : (sortByKey (buildDict []
        (data.filterMap (recordContrib group_by date_from date_to)))).Pairwise
          (fun a b => strLt a.1 b.1 = true) :=
      ((sorted_sortByKey _).and (List.pairwise_map.mp hn₁)).imp
        fun h => strLt_of_le_of_ne h.1 h.2
    rw [hxs]
    exact hstrict.map Prod.fst fun a b h => h
  · intro data' hperm
    have hparse' : ∀ r ∈ data', (parseDateTime r.date_checked).isSome :=
      fun r hr => hparse r (hperm.mem_iff.mpr hr)
    have hcs : (data.filterMap
        (recordContrib group_by date_from date_to)).Perm
          (data'.filterMap (recordContrib group_by date_from date_to)) :=
      hperm.filterMap _
    rw [group_data, if_pos hguard,
      foldlM_groupStep_ok group_by date_from date_to [] hparse',
      except_bind_ok, ← sortByKey_eq_of_perm (buildDict_perm hcs) hnodup,
      hxs, hys]

/-! ### Lexicographic versus chronological key order -/

theorem digitChar_toNat (n : Nat) (h : n < 10) :
    (Nat.digitChar n).toNat = 48 + n := by
  interval_cases n <;> decide

theorem charListLt_cons_same (c : Char) (s t : List Char) :
    charListLt (c :: s) (c :: t) = charListLt s t := by
  simp [charListLt]

theorem charListLt_nil_nil : charListLt [] [] = false := rfl

theorem charListLt_pad4 {a b : Nat} (ha : a < 10000) (hb : b < 10000)
    (s t : List Char) :
    charListLt ((pad4 a).data ++ s) ((pad4 b).data ++ t) =
      (decide (a < b) || (a == b && charListLt s t)) := by
  have h1 := digitChar_toNat (a / 1000) (by omega)
  have h2 := digitChar_toNat (a / 100 % 10) (by omega)
  have h3 := digitChar_toNat (a / 10 % 10) (by omega)
  have h4 := digitChar_toNat (a % 10) (by omega)
  have k1 := digitChar_toNat (b / 1000) (by omega)
  have k2 := digitChar_toNat (b / 100 % 10) (by omega)
  have k3 := digitChar_toNat (b / 10 % 10) (by omega)
  have k4 := digitChar_toNat (b % 10) (by omega)
  rw [Bool.eq_iff_iff]
  simp only [pad4, if_pos ha, if_pos hb, List.cons_append, List.nil_append,
    charListLt, Bool.or_eq_true, Bool.and_eq_true, decide_eq_true_eq,
    beq_iff_eq, h1, h2, h3, h4, k1, k2, k3, k4]
  cases hst : charListLt s t
  · simp only [Bool.false_eq_true, and_false, or_false]
    omega
  · simp only [and_true]
    omega

theorem charListLt_pad2 {a b : Nat} (ha : a < 100) (hb : b < 100)
    (s t : List Char) :
    charListLt ((pad2 a).data ++ s) ((pad2 b).data ++ t) =
      (decide (a < b) || (a == b && charListLt s t)) := by
  have h1 := digitChar_toNat (a / 10) (by omega)
  have h2 := digitChar_toNat (a % 10) (by omega)
  have k1 := digitChar_toNat (b / 10) (by omega)
  have k2 := digitChar_toNat (b % 10) (by omega)
  rw [Bool.eq_iff_iff]
  simp only [pad2, if_pos ha, if_pos hb, List.cons_append, List.nil_append,
    charListLt, Bool.or_eq_true, Bool.and_eq_true, decide_eq_true_eq,
    beq_iff_eq, h1, h2, k1, k2]
  cases hst : charListLt s t
  · simp only [Bool.false_eq_true, and_false, or_false]
    omega
  · simp only [and_true]
    omega

theorem dayKey_data (dt : DateTime) :
    (dayKey dt).data =
      (pad4 dt.year).data ++ ('-' :: ((pad2 dt.month).data ++
        ('-' :: ((pad2 dt.day).data ++ [])))) := by
  simp [dayKey, String.data_append]

theorem monthKey_data (dt : DateTime) :
    (monthKey dt).data =
      (pad4 dt.year).data ++ ('-' :: ((pad2 dt.month).data ++ [])) := by
  simp [monthKey, String.data_append]

theorem daysInMonth_le (y m : Nat) : daysInMonth y m ≤ 31 := by
  unfold daysInMonth
  split
  · split <;> omega
  · split <;> omega

/-- Bounds on the calendar fields of a valid timestamp. -/
theorem valid_bounds {dt : DateTime} (h : dt.valid = true) :
    dt.year < 10000 ∧ dt.month < 100 ∧ dt.day < 100 := by
  have hd := daysInMonth_le dt.year dt.month
  simp only [DateTime.valid, Bool.and_eq_true, decide_eq_true_eq] at h
  omega

/-- Lexicographic order of day keys is the chronological order of
`(year, month, day)` for valid timestamps. -/
theorem dayKey_lt_iff {dt₁ dt₂ : DateTime} (h₁ : dt₁.valid = true)
    (h₂ : dt₂.valid = true) :
    strLt (dayKey dt₁) (dayKey dt₂) = true ↔
      (dt₁.year < dt₂.year ∨ (dt₁.year = dt₂.year ∧
        (dt₁.month < dt₂.month ∨ (dt₁.month = dt₂.month ∧
          dt₁.day < dt₂.day)))) := by
  obtain ⟨hy₁, hm₁, hd₁⟩ := valid_bounds h₁
  obtain ⟨hy₂, hm₂, hd₂⟩ := valid_bounds h₂
  show charListLt (dayKey dt₁).data (dayKey dt₂).data = true ↔ _
  rw [dayKey_data, dayKey_data, charListLt_pad4 hy₁ hy₂,
    charListLt_cons_same, charListLt_pad2 hm₁ hm₂, charListLt_cons_same,
    charListLt_pad2 hd₁ hd₂, charListLt_nil_nil]
  simp only [Bool.or_eq_true, Bool.and_eq_true, decide_eq_true_eq,
    beq_iff_eq, Bool.and_false, Bool.or_false]

/-- Lexicographic order of month keys is the chronological order of
`(year, month)` for valid timestamps. -/
theorem monthKey_lt_iff {dt₁ dt₂ : DateTime} (h₁ : dt₁.valid = true)
    (h₂ : dt₂.valid = true) :
    strLt (monthKey dt₁) (monthKey dt₂) = true ↔
      (dt₁.year < dt₂.year ∨ (dt₁.year = dt₂.year ∧
        dt₁.month < dt₂.month)) := by
  obtain ⟨hy₁, hm₁, _⟩ := valid_bounds h₁
  obtain ⟨hy₂, hm₂, _⟩ := valid_bounds h₂
  show charListLt (monthKey dt₁).data (monthKey dt₂).data = true ↔ _
  rw [monthKey_data, monthKey_data, charListLt_pad4 hy₁ hy₂,
    charListLt_cons_same, charListLt_pad2 hm₁ hm₂, charListLt_nil_nil]
  simp only [Bool.or_eq_true, Bool.and_eq_true, decide_eq_true_eq,
    beq_iff_eq, Bool.and_false, Bool.or_false]

/-- C1 as stated is false on the code: both timestamps are valid, the first
is chronologically earlier, yet with week granularity its bucket key
"2024-W52" is not lexicographically ≤ the later timestamp's key "2024-W01"
— the week key pairs the calendar year with the ISO week number, which
resets to 01 on 2024-12-30. -/
theorem C1_counterexample :
    DateTime.valid ⟨2024, 12, 23, 0, 0, 0⟩ = true ∧
    DateTime.valid ⟨2024, 12, 30, 0, 0, 0⟩ = true ∧
    DateTime.lt ⟨2024, 12, 23, 0, 0, 0⟩ ⟨2024, 12, 30, 0, 0, 0⟩ = true ∧
    bucketKey "week" ⟨2024, 12, 23, 0, 0, 0⟩ = "2024-W52" ∧
    bucketKey "week" ⟨2024, 12, 30, 0, 0, 0⟩ = "2024-W01" ∧
    strLe (bucketKey "week" ⟨2024, 12, 23, 0, 0, 0⟩)
      (bucketKey "week" ⟨2024, 12, 30, 0, 0, 0⟩) = false ∧
    strLt (bucketKey "week" ⟨2024, 12, 30, 0, 0, 0⟩)
      (bucketKey "week" ⟨2024, 12, 23, 0, 0, 0⟩) = true := by
  decide

/-- C1 amended: for day and month granularity, lexicographic ordering of
bucket keys equals the chronological ordering of the buckets they
represent, and the key of the earlier timestamp is ≤ the key of the later;
for week granularity this fails at ISO year boundaries (see the
counterexample) because the key combines the calendar year with the ISO
week number. -/
theorem C1_amended_day_month_ordering (dt₁ dt₂ : DateTime)
    (h₁ : dt₁.valid = true) (h₂ : dt₂.valid = true) :
    (strLt (bucketKey "day" dt₁) (bucketKey "day" dt₂) = true ↔
      (dt₁.year < dt₂.year ∨ (dt₁.year = dt₂.year ∧
        (dt₁.month < dt₂.month ∨ (dt₁.month = dt₂.month ∧
          dt₁.day < dt₂.day))))) ∧
    (strLt (bucketKey "month" dt₁) (bucketKey "month" dt₂) = true ↔
      (dt₁.year < dt₂.year ∨ (dt₁.year = dt₂.year ∧
        dt₁.month < dt₂.month))) ∧
    (DateTime.le dt₁ dt₂ = true →
      strLe (bucketKey "day" dt₁) (bucketKey "day" dt₂) = true) ∧
    (DateTime.le dt₁ dt₂ = true →
      strLe (bucketKey "month" dt₁) (bucketKey "month" dt₂) = true) := by
  have hbd₁ : bucketKey "day" dt₁ = dayKey dt₁ := rfl
  have hbd₂ : bucketKey "day" dt₂ = dayKey dt₂ := rfl
  have hbm₁ : bucketKey "month" dt₁ = monthKey dt₁ := rfl
  have hbm₂ : bucketKey "month" dt₂ = monthKey dt₂ := rfl
  refine ⟨by rw [hbd₁, hbd₂]; exact dayKey_lt_iff h₁ h₂,
    by rw [hbm₁, hbm₂]; exact monthKey_lt_iff h₁ h₂, ?_, ?_⟩
  · intro hle
    rw [hbd₁, hbd₂]
    simp only [strLe, Bool.not_eq_true']
    cases hlt : strLt (dayKey dt₂) (dayKey dt₁)
    · rfl
    · exfalso
      have hord := (dayKey_lt_iff h₂ h₁).mp hlt
      simp only [DateTime.le, Bool.or_eq_true, Bool.and_eq_true,
        decide_eq_true_eq, beq_iff_eq] at hle
      omega
  · intro hle
    rw [hbm₁, hbm₂]
    simp only [strLe, Bool.not_eq_true']
    cases hlt : strLt (monthKey dt₂) (monthKey dt₁)
    · rfl
    · exfalso
      have hord := (monthKey_lt_iff h₂ h₁).mp hlt
      simp only [DateTime.le, Bool.or_eq_true, Bool.and_eq_true,
        decide_eq_true_eq, beq_iff_eq] at hle
      omega

theorem C1_witness :
    (strLt (bucketKey "day" ⟨2024, 12, 23, 0, 0, 0⟩)
        (bucketKey "day" ⟨2024, 12, 30, 0, 0, 0⟩) = true ↔
      ((2024 : Nat) < 2024 ∨ ((2024 : Nat) = 2024 ∧
        ((12 : Nat) < 12 ∨ ((12 : Nat) = 12 ∧ (23 : Nat) < 30))))) ∧
    (strLt (bucketKey "month" ⟨2024, 12, 23, 0, 0, 0⟩)
        (bucketKey "month" ⟨2024, 12, 30, 0, 0, 0⟩) = true ↔
      ((2024 : Nat) < 2024 ∨ ((2024 : Nat) = 2024 ∧ (12 : Nat) < 12))) ∧
    (DateTime.le ⟨2024, 12, 23, 0, 0, 0⟩ ⟨2024, 12, 30, 0, 0, 0⟩ = true →
      strLe (bucketKey "day" ⟨2024, 12, 23, 0, 0, 0⟩)
        (bucketKey "day" ⟨2024, 12, 30, 0, 0, 0⟩) = true) ∧
    (DateTime.le ⟨2024, 12, 23, 0, 0, 0⟩ ⟨2024, 12, 30, 0, 0, 0⟩ = true →
      strLe (bucketKey "month" ⟨2024, 12, 23, 0, 0, 0⟩)
        (bucketKey "month" ⟨2024, 12, 30, 0, 0, 0⟩) = true) :=
  C1_amended_day_month_ordering ⟨2024, 12, 23, 0, 0, 0⟩
    ⟨2024, 12, 30, 0, 0, 0⟩ (by decide) (by decide)

theorem C5_witness :
    (["2025-01", "2025-02"] : List String).Pairwise
        (fun a b => strLt a b = true) ∧
      ∀ data' : List Record,
        ([⟨1, some 10, "2025-01-01 00:00:00"⟩,
          ⟨2, some 5, "2025-01-15 00:00:00"⟩,
          ⟨3, some 7, "2025-02-01 00:00:00"⟩] : List Record).Perm data' →
        group_data data' "month" none none =
          .ok (["2025-01", "2025-02"], [15, 7]) :=
  C5_sorted_and_order_independent
    [⟨1, some 10, "2025-01-01 00:00:00"⟩, ⟨2, some 5, "2025-01-15 00:00:00"⟩,
      ⟨3, some 7, "2025-02-01 00:00:00"⟩]
    "month" none none ["2025-01", "2025-02"] [15, 7] (by decide)

end FediGrowth
